import Mathlib

/-!
Verification development for the sheet-music API backend.

Part 1 embeds the OCR metadata extractor `processSmartMetadata`
(src/index.js, lines 105–165): line splitting and trimming, the
clean-line filter, title selection, the two labelled composer regexes
(`Μουσική…` / `Στίχοι…`, case-insensitive, with lazy capture and greedy
separator backtracking, as ECMAScript executes them), and the positional
fallback.

Part 2 embeds the PDF annotation compositor from the
`GET /api/sheets/:id/download` handler (src/index.js, lines 807–860):
page-range filtering of the annotation map, per annotation rendering of
`path` and `text` variants with the normalized-to-absolute coordinate
transform, colour resolution with defaults, and the per annotation
try/catch that drops a failing annotation without affecting its siblings.

Strings are modelled as lists of Unicode scalar values; JavaScript
numbers are modelled as exact rationals.
-/

namespace OpusOne

/-- The ECMAScript whitespace set: the regex class `\s`, which is also the
set removed by `String.prototype.trim`. -/
def isJsWs (c : Char) : Bool :=
  let n := c.toNat
  n == 0x09 || n == 0x0A || n == 0x0B || n == 0x0C || n == 0x0D || n == 0x20 ||
  n == 0xA0 || n == 0x1680 || (0x2000 ≤ n && n ≤ 0x200A) || n == 0x2028 ||
  n == 0x2029 || n == 0x202F || n == 0x205F || n == 0x3000 || n == 0xFEFF

/-- Remove leading JavaScript whitespace. -/
def trimLeftWs (l : List Char) : List Char := l.dropWhile isJsWs

/-- Remove trailing JavaScript whitespace. -/
def trimRightWs (l : List Char) : List Char := (l.reverse.dropWhile isJsWs).reverse

/-- Model of the trim method: strip whitespace from both ends. -/
def jsTrim (l : List Char) : List Char := trimRightWs (trimLeftWs l)

/-- Model of the split-on-newline step: split at every newline character,
keeping empty pieces. -/
def splitNl : List Char → List (List Char)
  | [] => [[]]
  | c :: rest =>
    if c = '\n' then [] :: splitNl rest
    else
      match splitNl rest with
      | [] => [[c]]
      | l :: ls => (c :: l) :: ls

/-- The line pre-processing step: split the raw text on newlines, trim
each line, and keep only the non-empty ones. -/
def textLines (s : String) : List (List Char) :=
  ((splitNl s.data).map jsTrim).filter (fun l => !l.isEmpty)

/-- Characters counted by the extractor's Greek-letter regex
`[Α-Ωα-ωά-ώ]` (U+0391–U+03A9 and U+03AC–U+03CE; the second source range
`α-ω` lies inside `ά-ώ`). -/
def isGreekLetter (c : Char) : Bool :=
  let n := c.toNat
  (0x391 ≤ n && n ≤ 0x3A9) || (0x3AC ≤ n && n ≤ 0x3CE)

/-- Characters counted by the extractor's Latin-letter regex `[A-Za-z]`. -/
def isLatinLetter (c : Char) : Bool :=
  let n := c.toNat
  (0x41 ≤ n && n ≤ 0x5A) || (0x61 ≤ n && n ≤ 0x7A)

/-- The extractor's enumerated OCR-noise denylist: combining Greek
diacritics, spacing breathing/accent marks, quote and dot ornaments,
dashes, bullets, geometric shapes U+25CB–U+25CF, U+25D0–U+25D9, U+25E6,
U+25F0–U+25FF, and the miscellaneous-symbols run U+2600–U+266F. -/
def isNoiseChar (c : Char) : Bool :=
  let n := c.toNat
  n == 0x313 || n == 0x300 || n == 0x301 || n == 0x308 || n == 0x342 || n == 0x345 ||
  n == 0x1FBD || n == 0x1FFE || n == 0x1FBF || n == 0x1FCE || n == 0x1FCD ||
  n == 0x1FCF || n == 0x1FDD || n == 0x1FDE || n == 0x1FDF || n == 0x1FED ||
  n == 0x385 || n == 0x60 || n == 0x384 || n == 0x27 || n == 0x201B || n == 0x22 ||
  n == 0x201F || (0x2024 ≤ n && n ≤ 0x2027) || n == 0x2D ||
  (0x2013 ≤ n && n ≤ 0x2015) || n == 0x2E || n == 0xB7 || n == 0x2022 ||
  (0x25CB ≤ n && n ≤ 0x25CF) || (0x25D0 ≤ n && n ≤ 0x25D9) || n == 0x25E6 ||
  (0x25F0 ≤ n && n ≤ 0x25FF) || (0x2600 ≤ n && n ≤ 0x266F)

/-- The `isCleanLine` filter: at least three Greek/Latin letters, and
strictly more letters than denylisted noise characters. -/
def isCleanLine (l : List Char) : Bool :=
  let greekLetters := (l.filter isGreekLetter).length
  let latinLetters := (l.filter isLatinLetter).length
  let totalLetters := greekLetters + latinLetters
  let noiseChars := (l.filter isNoiseChar).length
  decide (3 ≤ totalLetters) && decide (noiseChars < totalLetters)

/-- Case canonicalisation as ECMAScript `/i` regexes perform it
(`toUpperCase`) on the Latin and Greek ranges the extractor touches,
including final sigma, the accented vowels, the diaeresis vowels and the
micro sign. -/
def upperChar (c : Char) : Char :=
  let n := c.toNat
  if 0x61 ≤ n ∧ n ≤ 0x7A then Char.ofNat (n - 32)
  else if n = 0x3C2 then Char.ofNat 0x3A3
  else if 0x3B1 ≤ n ∧ n ≤ 0x3C9 then Char.ofNat (n - 32)
  else if n = 0x3AC then Char.ofNat 0x386
  else if n = 0x3AD then Char.ofNat 0x388
  else if n = 0x3AE then Char.ofNat 0x389
  else if n = 0x3AF then Char.ofNat 0x38A
  else if n = 0x3CC then Char.ofNat 0x38C
  else if n = 0x3CD then Char.ofNat 0x38E
  else if n = 0x3CE then Char.ofNat 0x38F
  else if n = 0x3CA then Char.ofNat 0x3AA
  else if n = 0x3CB then Char.ofNat 0x3AB
  else if n = 0xB5 then Char.ofNat 0x39C
  else c

/-- Case-insensitive test that `pat` occurs at the front of `l`. -/
def canonStarts : List Char → List Char → Bool
  | [], _ => true
  | _ :: _, [] => false
  | p :: ps, c :: cs => upperChar p = upperChar c && canonStarts ps cs

/-- The title-scan label test `^(Μουσική|Στίχοι|Music|Lyrics|Composer):`
with the `/i` flag. -/
def isLabelLine (l : List Char) : Bool :=
  canonStarts "Μουσική:".data l || canonStarts "Στίχοι:".data l ||
  canonStarts "Music:".data l || canonStarts "Lyrics:".data l ||
  canonStarts "Composer:".data l

/-- The title-selection loop: first clean, non-label line of length at
least 4; empty if none. -/
def titleScan : List (List Char) → List Char
  | [] => []
  | l :: rest =>
    if !isCleanLine l then titleScan rest
    else if isLabelLine l then titleScan rest
    else if 4 ≤ l.length then l
    else titleScan rest

/-- The regex class `[:\s]` separating a label from the captured name. -/
def isSepChar (c : Char) : Bool := c == ':' || isJsWs c

/-- The capture class `[Α-Ωα-ωά-ώA-Za-z\s]` under `/i`: a character
matches if its canonical form lies in the canonical closure of the
listed ranges, or it is whitespace. -/
def isNameChar (c : Char) : Bool :=
  let u := (upperChar c).toNat
  (0x391 ≤ u && u ≤ 0x3A9) || u == 0x386 || u == 0x388 || u == 0x389 ||
  u == 0x38A || u == 0x38C || u == 0x38E || u == 0x38F || u == 0x3AA ||
  u == 0x3AB || u == 0x3B0 || (0x41 ≤ u && u ≤ 0x5A) || isJsWs c

/-- A character of the capture class that is not whitespace: a Greek or
Latin letter as the case-insensitive regexes see letters. -/
def isRegexLetter (c : Char) : Bool := isNameChar c && !isJsWs c

/-- Match the literal `pat` case-insensitively at the front of `l`,
returning the remaining input on success. -/
def litFits : List Char → List Char → Option (List Char)
  | [], l => some l
  | _ :: _, [] => none
  | p :: ps, c :: cs => if upperChar p = upperChar c then litFits ps cs else none

/-- After at least one whitespace character has been consumed: succeed if
the stop literal fits here, or consume further whitespace. -/
def wsLitAux (stop : List Char) : List Char → Bool
  | [] => (litFits stop []).isSome
  | c :: rest => (litFits stop (c :: rest)).isSome || (isJsWs c && wsLitAux stop rest)

/-- The tail alternative `\s+stop`: one or more whitespace characters
followed by the stop literal. -/
def wsThenLit (stop : List Char) : List Char → Bool
  | [] => false
  | c :: rest => isJsWs c && wsLitAux stop rest

/-- The regex tail `(?:\s+stop1|\s+stop2|$)` at the given position. -/
def tailOk (stop1 stop2 : List Char) (l : List Char) : Bool :=
  l.isEmpty || wsThenLit stop1 l || wsThenLit stop2 l

/-- The lazy capture `([Α-Ωα-ωά-ώA-Za-z\s]+?)`: grow the captured text one
character at a time, accepting the first length at which the tail
matches. -/
def capGo (stop1 stop2 : List Char) (acc : List Char) : List Char → Option (List Char)
  | [] => none
  | c :: rest =>
    if isNameChar c then
      if tailOk stop1 stop2 rest then some (acc ++ [c])
      else capGo stop1 stop2 (acc ++ [c]) rest
    else none

/-- The greedy separator `[:\s]+`: try the longest separator run first and
backtrack down to a single character. -/
def sepGo (stop1 stop2 : List Char) (l : List Char) : Nat → Option (List Char)
  | 0 => none
  | m + 1 =>
    match capGo stop1 stop2 [] (l.drop (m + 1)) with
    | some cap => some cap
    | none => sepGo stop1 stop2 l m

/-- Leftmost search for `label[:\s]+(name+?)(?:\s+stop1|\s+stop2|$)`:
try each start position from the left; at each occurrence of the label
run the separator/capture/tail backtracking. Returns capture group 1. -/
def searchLabel (label stop1 stop2 : List Char) : List Char → Option (List Char)
  | [] => none
  | c :: rest =>
    match litFits label (c :: rest) with
    | some afterLabel =>
      match sepGo stop1 stop2 afterLabel (afterLabel.takeWhile isSepChar).length with
      | some cap => some cap
      | none => searchLabel label stop1 stop2 rest
    | none => searchLabel label stop1 stop2 rest

/-- The composer regex labelled `Μουσική`, with stop words `Στίχοι` and
`Lyrics`; returns capture group 1. -/
def musicMatch (l : List Char) : Option (List Char) :=
  searchLabel "Μουσική".data "Στίχοι".data "Lyrics".data l

/-- The lyricist regex labelled `Στίχοι`, with stop words `Μουσική` and
`Music`; returns capture group 1. -/
def lyricsMatch (l : List Char) : Option (List Char) :=
  searchLabel "Στίχοι".data "Μουσική".data "Music".data l

/-- The labelled-pattern composer scan: a `Μουσική` match sets the composer
and breaks immediately; a `Στίχοι` match sets it only when still unset and
scanning continues. -/
def labeledScan : List (List Char) → List Char → List Char
  | [], comp => comp
  | l :: rest, comp =>
    match musicMatch l with
    | some cap => jsTrim cap
    | none =>
      match lyricsMatch l with
      | some cap => labeledScan rest (if comp.isEmpty then jsTrim cap else comp)
      | none => labeledScan rest comp

/-- The positional fallback: skip unclean lines, skip the first clean line,
then take the first clean line differing from the title with length at
least 3. -/
def fallbackScan (title : List Char) : List (List Char) → Bool → List Char
  | [], _ => []
  | l :: rest, found =>
    if !isCleanLine l then fallbackScan title rest found
    else if !found then fallbackScan title rest true
    else if l ≠ title ∧ 3 ≤ l.length then l
    else fallbackScan title rest found

/-- The extractor's result record. -/
structure ExtractedMetadata where
  title : String
  composer : String
  rawText : String
deriving DecidableEq, Repr

/-- `processSmartMetadata`: split and trim lines, select the title, run the
labelled composer scan, fall back to the positional heuristic when the
scan produced nothing, and return the three-field record. -/
def processSmartMetadata (input : String) : ExtractedMetadata :=
  let lines := textLines input
  if lines.isEmpty then ⟨"", "", ""⟩
  else
    let title := titleScan lines
    let labeled := labeledScan lines []
    let composer := if labeled.isEmpty then fallbackScan title lines false else labeled
    ⟨String.mk title, String.mk composer, input⟩

/-!
Part 2: the annotation compositor of the download handler.  Page keys of
the annotation map are modelled as the parsed page numbers; JavaScript
numbers are modelled as rationals.
-/

/-- A point of an annotation, in normalized page coordinates. -/
structure Pt where
  x : ℚ
  y : ℚ
deriving DecidableEq, Repr

/-- An RGB colour with components in the unit interval. -/
structure RGBColor where
  r : ℚ
  g : ℚ
  b : ℚ
deriving DecidableEq, Repr

/-- Outcome of reading the colour field of an annotation: the field may be
absent (falsy), hold a string the JSON parser rejects, or parse to a value
whose `r`, `g`, `b` members are each a number or undefined. -/
inductive ColorField where
  | absent
  | malformed
  | parsed (r g b : Option ℚ)
deriving DecidableEq, Repr

/-- An annotation record as the handler reads it: a type tag and the
optional fields each branch consumes. -/
structure Ann where
  type : String
  points : Option (List Pt) := none
  color : ColorField := ColorField.absent
  opacity : Option ℚ := none
  strokeWidth : Option ℚ := none
  text : Option String := none
  size : Option ℚ := none
  x : ℚ := 0
  y : ℚ := 0
deriving DecidableEq, Repr

/-- One drawing instruction issued to the PDF page. -/
inductive DrawOp where
  | line (p q : Pt) (thickness : ℚ) (color : RGBColor) (opacity : ℚ)
  | text (s : String) (x y size : ℚ) (color : RGBColor)
deriving DecidableEq, Repr

/-- Colour resolution: a present colour string that parses replaces the
branch default wholesale; an absent or unparseable one keeps the default
(the JSON parse sits in its own try/catch). -/
def resolveColor (cf : ColorField) (dflt : RGBColor) : Option ℚ × Option ℚ × Option ℚ :=
  match cf with
  | ColorField.parsed r g b => (r, g, b)
  | _ => (some dflt.r, some dflt.g, some dflt.b)

/-- The colour constructor of the PDF library: each component must be a
number in the unit interval, otherwise it throws. -/
def mkRgb : Option ℚ × Option ℚ × Option ℚ → Except Unit RGBColor
  | (some r, some g, some b) =>
    if 0 ≤ r ∧ r ≤ 1 ∧ 0 ≤ g ∧ g ≤ 1 ∧ 0 ≤ b ∧ b ≤ 1 then Except.ok ⟨r, g, b⟩
    else Except.error ()
  | _ => Except.error ()

/-- Falsy-or default, as the logical-or defaulting of stroke width and
font size behaves: undefined and zero both yield the default. -/
def numOr (v : Option ℚ) (d : ℚ) : ℚ :=
  match v with
  | some q => if q = 0 then d else q
  | none => d

/-- Truthiness of the optional text field: present and non-empty. -/
def strTruthy (v : Option String) : Bool :=
  match v with
  | some s => !s.isEmpty
  | none => false

/-- The body of the per annotation try block on a page of size `w` by `h`:
a `path` annotation with at least two points maps each normalized point to
absolute coordinates and emits a line segment per adjacent pair; a `text`
annotation emits one text instruction at the flipped, baseline-shifted
origin; anything else draws nothing.  The error case models a throw from
colour validation. -/
def processAnn (w h : ℚ) (a : Ann) : Except Unit (List DrawOp) :=
  let ps := a.points.getD []
  if a.type == "path" && a.points.isSome && decide (1 < ps.length) then
    let pathPoints := ps.map (fun p => Pt.mk (p.x * w) (h - p.y * h))
    match mkRgb (resolveColor a.color ⟨1, 1, 0⟩) with
    | Except.error e => Except.error e
    | Except.ok colorObj =>
      let opacity := a.opacity.getD (1 / 2)
      let thickness := numOr a.strokeWidth 5
      Except.ok ((List.range (pathPoints.length - 1)).map (fun i =>
        DrawOp.line (pathPoints.getD i ⟨0, 0⟩) (pathPoints.getD (i + 1) ⟨0, 0⟩)
          thickness colorObj opacity))
  else if a.type == "text" && strTruthy a.text then
    let fontSize := numOr a.size 12
    match mkRgb (resolveColor a.color ⟨0, 0, 0⟩) with
    | Except.error e => Except.error e
    | Except.ok colorObj =>
      Except.ok [DrawOp.text (a.text.getD "") (a.x * w) (h - a.y * h - fontSize + 2)
        fontSize colorObj]
  else Except.ok []

/-- Contribution of one annotation under the per annotation catch: a
throwing annotation contributes nothing. -/
def annOps (e : Except Unit (List DrawOp)) : List DrawOp :=
  match e with
  | Except.ok ops => ops
  | Except.error _ => []

/-- Render every annotation of one page in order, skipping the failing
ones individually. -/
def renderPage (w h : ℚ) (anns : List Ann) : List DrawOp :=
  (anns.map (fun a => annOps (processAnn w h a))).flatten

/-- A document page: its size and the instructions drawn onto it. -/
structure Page where
  width : ℚ
  height : ℚ
  ops : List DrawOp := []
deriving DecidableEq, Repr

/-- Process one key of the annotation map: when the parsed page number
lies in the inclusive range from 1 to the page count, append that key's
rendered operations to the corresponding page; otherwise leave the
document untouched. -/
def applyEntry (pages : List Page) (e : Nat × List Ann) : List Page :=
  if 1 ≤ e.1 ∧ e.1 ≤ pages.length then
    match pages.get? (e.1 - 1) with
    | some pg =>
      pages.set (e.1 - 1) { pg with ops := pg.ops ++ renderPage pg.width pg.height e.2 }
    | none => pages
  else pages

/-- The compositing loop over the keys of the annotation map. -/
def applyAnnotations (pages : List Page) (m : List (Nat × List Ann)) : List Page :=
  m.foldl applyEntry pages

/-! Characterisations of the extractor's scanning loops. -/

/-- The title loop selects the first clean, unlabelled line of length at
least 4. -/
theorem titleScan_eq_find (lines : List (List Char)) :
    titleScan lines =
      ((lines.find? (fun l => isCleanLine l && !isLabelLine l && decide (4 ≤ l.length))).getD
        []) := by
  induction lines with
  | nil => rfl
  | cons l rest ih =>
    rw [titleScan, List.find?_cons]
    cases hc : isCleanLine l
    · simpa [hc] using ih
    · cases hl : isLabelLine l
      · by_cases h4 : 4 ≤ l.length
        · simp [hc, hl, h4]
        · simpa [hc, hl, h4] using ih
      · simpa [hc, hl] using ih

/-- The fallback loop, once a first clean line has been consumed, selects
the first clean line differing from the title with length at least 3. -/
theorem fallbackScan_true_eq (title : List Char) (lines : List (List Char)) :
    fallbackScan title lines true =
      (((lines.filter isCleanLine).find?
        (fun l => decide (l ≠ title) && decide (3 ≤ l.length))).getD []) := by
  induction lines with
  | nil => rfl
  | cons l rest ih =>
    rw [fallbackScan]
    cases hc : isCleanLine l
    · simpa [List.filter_cons, hc] using ih
    · by_cases hp : l ≠ title ∧ 3 ≤ l.length
      · simp [List.filter_cons, hc, hp, List.find?_cons, hp.1, hp.2]
      · have hpred : (decide (l ≠ title) && decide (3 ≤ l.length)) = false := by
          rcases Decidable.not_and_iff_or_not.mp hp with h | h <;> simp [h]
        simp [hc, hp, hpred, List.filter_cons, List.find?_cons, ih]

/-- The fallback loop from its initial state: drop the first clean line,
then select as above. -/
theorem fallbackScan_false_eq (title : List Char) (lines : List (List Char)) :
    fallbackScan title lines false =
      (((lines.filter isCleanLine).tail.find?
        (fun l => decide (l ≠ title) && decide (3 ≤ l.length))).getD []) := by
  induction lines with
  | nil => rfl
  | cons l rest ih =>
    rw [fallbackScan]
    cases hc : isCleanLine l
    · simpa [List.filter_cons, hc] using ih
    · simp [List.filter_cons, hc, fallbackScan_true_eq]

/-- Every character the lazy capture accumulates belongs to the capture
class. -/
theorem capGo_nameChars (stop1 stop2 : List Char) :
    ∀ l acc cap : List Char, capGo stop1 stop2 acc l = some cap →
      (∀ c ∈ acc, isNameChar c = true) → ∀ c ∈ cap, isNameChar c = true := by
  intro l
  induction l with
  | nil => intro acc cap h; simp [capGo] at h
  | cons c rest ih =>
    intro acc cap h hacc
    rw [capGo] at h
    cases hn : isNameChar c
    · simp [hn] at h
    · have hext : ∀ d ∈ acc ++ [c], isNameChar d = true := by
        intro d hd
        rcases List.mem_append.mp hd with h1 | h1
        · exact hacc d h1
        · simp at h1; subst h1; exact hn
      cases ht : tailOk stop1 stop2 rest
      · simp only [hn, ht, if_true, if_false, Bool.false_eq_true, if_neg] at h
        exact ih (acc ++ [c]) cap h hext
      · simp only [hn, ht, if_true, Option.some.injEq] at h
        exact h ▸ hext


/-- The separator backtracking preserves the capture-class property of the
returned capture. -/
theorem sepGo_nameChars (stop1 stop2 l : List Char) :
    ∀ (m : Nat) (cap : List Char), sepGo stop1 stop2 l m = some cap →
      ∀ c ∈ cap, isNameChar c = true := by
  intro m
  induction m with
  | zero => intro cap h; simp [sepGo] at h
  | succ m ih =>
    intro cap h
    rw [sepGo] at h
    cases hc : capGo stop1 stop2 [] (l.drop (m + 1)) with
    | some cap2 =>
      simp only [hc, Option.some.injEq] at h
      subst h
      exact capGo_nameChars stop1 stop2 (l.drop (m + 1)) [] cap2 hc (by simp)
    | none =>
      simp only [hc] at h
      exact ih cap h

/-- The leftmost label search returns a capture made of capture-class
characters only. -/
theorem searchLabel_nameChars (label stop1 stop2 : List Char) :
    ∀ l cap : List Char, searchLabel label stop1 stop2 l = some cap →
      ∀ c ∈ cap, isNameChar c = true := by
  intro l
  induction l with
  | nil => intro cap h; simp [searchLabel] at h
  | cons c rest ih =>
    intro cap h
    rw [searchLabel] at h
    cases hf : litFits label (c :: rest) with
    | some afterLabel =>
      cases hs : sepGo stop1 stop2 afterLabel (afterLabel.takeWhile isSepChar).length with
      | some cap2 =>
        simp only [hf, hs, Option.some.injEq] at h
        subst h
        exact sepGo_nameChars _ _ _ _ cap2 hs
      | none =>
        simp only [hf, hs] at h
        exact ih cap h
    | none =>
      simp only [hf] at h
      exact ih cap h

/-- The head of a left-trimmed list is not whitespace. -/
theorem trimLeftWs_head (l : List Char) :
    trimLeftWs l = [] ∨ ∃ c rest, trimLeftWs l = c :: rest ∧ isJsWs c = false := by
  induction l with
  | nil => left; rfl
  | cons c rest ih =>
    rw [trimLeftWs, List.dropWhile_cons]
    cases hw : isJsWs c
    · right; exact ⟨c, rest, by simp [hw], hw⟩
    · simpa [hw, trimLeftWs] using ih

/-- Right-trimming shortens a list by a suffix only. -/
theorem trimRightWs_isPre (m : List Char) : ∃ t, m = trimRightWs m ++ t := by
  obtain ⟨t, ht⟩ := List.dropWhile_suffix (l := m.reverse) isJsWs
  refine ⟨t.reverse, ?_⟩
  have h2 := congrArg List.reverse ht
  simpa [trimRightWs] using h2.symm

/-- A non-empty trimmed list starts with a non-whitespace character drawn
from the original list. -/
theorem jsTrim_head (l : List Char) :
    jsTrim l = [] ∨ ∃ c rest, jsTrim l = c :: rest ∧ isJsWs c = false ∧ c ∈ l := by
  rcases trimLeftWs_head l with h | ⟨c, mid, hcr, hws⟩
  · left; rw [jsTrim, h]; rfl
  · obtain ⟨t, ht⟩ := trimRightWs_isPre (trimLeftWs l)
    cases hj : jsTrim l with
    | nil => left; rfl
    | cons d ds =>
      right
      rw [jsTrim] at hj
      rw [hj, hcr, List.cons_append] at ht
      injection ht with h1 h2
      refine ⟨d, ds, rfl, h1 ▸ hws, ?_⟩
      have hdmem : d ∈ trimLeftWs l := by
        rw [hcr, ← h1]; exact List.mem_cons_self c mid
      exact (List.dropWhile_sublist isJsWs).subset hdmem

/-- A capture of capture-class characters that trims to something
non-empty contains a letter. -/
theorem jsTrim_cap_letter (cap : List Char)
    (hname : ∀ c ∈ cap, isNameChar c = true) (hne : jsTrim cap ≠ []) :
    ∃ c ∈ jsTrim cap, isRegexLetter c = true := by
  rcases jsTrim_head cap with h | ⟨c, rest, hcr, hws, hmem⟩
  · exact absurd h hne
  · refine ⟨c, by rw [hcr]; exact List.mem_cons_self c rest, ?_⟩
    simp [isRegexLetter, hname c hmem, hws]

/-- Every non-empty result of the labelled scan contains a letter of the
capture classes. -/
theorem labeledScan_letter :
    ∀ (lines : List (List Char)) (comp : List Char),
      (comp ≠ [] → ∃ c ∈ comp, isRegexLetter c = true) →
      labeledScan lines comp ≠ [] →
      ∃ c ∈ labeledScan lines comp, isRegexLetter c = true := by
  intro lines
  induction lines with
  | nil => intro comp hc hne; exact hc hne
  | cons l rest ih =>
    intro comp hc hne
    rw [labeledScan] at hne ⊢
    cases hm : musicMatch l with
    | some cap =>
      simp only [hm] at hne ⊢
      exact jsTrim_cap_letter cap (searchLabel_nameChars _ _ _ l cap hm) hne
    | none =>
      cases hl : lyricsMatch l with
      | some cap =>
        simp only [hm, hl] at hne ⊢
        refine ih _ ?_ hne
        intro hcomp
        cases he : comp.isEmpty
        · have hcne : comp ≠ [] := fun hh => by rw [hh] at he; exact absurd he (by simp)
          simpa [he] using hc hcne
        · simp only [he, if_true] at hcomp ⊢
          exact jsTrim_cap_letter cap (searchLabel_nameChars _ _ _ l cap hl) hcomp
      | none =>
        simp only [hm, hl] at hne ⊢
        exact ih comp hc hne

/-- The positional fallback returns the empty string or one of the clean
lines. -/
theorem fallbackScan_clean (title : List Char) :
    ∀ (lines : List (List Char)) (found : Bool),
      fallbackScan title lines found = [] ∨
        isCleanLine (fallbackScan title lines found) = true := by
  intro lines
  induction lines with
  | nil => intro found; left; rfl
  | cons l rest ih =>
    intro found
    rw [fallbackScan]
    cases hc : isCleanLine l
    · simpa [hc] using ih found
    · cases found
      · simpa [hc] using ih true
      · by_cases hp : l ≠ title ∧ 3 ≤ l.length
        · right; simp [hc, hp]
        · simpa [hc, hp] using ih true

/-- C1: on the sample text with first line Symphony No. 5, second line
Ludwig van Beethoven and third line a Latin label line, the extracted
title is the first line and the extracted composer contains Beethoven,
here resolved by the positional fallback. -/
theorem C1_beethoven_sample :
    (processSmartMetadata "Symphony No. 5\nLudwig van Beethoven\nMusic: L. Beethoven").title
        = "Symphony No. 5" ∧
    ∃ pre post : List Char,
      (processSmartMetadata
          "Symphony No. 5\nLudwig van Beethoven\nMusic: L. Beethoven").composer.data
        = pre ++ "Beethoven".data ++ post :=
  ⟨by decide, "Ludwig van ".data, [], by decide⟩

/-- C2: for every input, the extracted title is the first trimmed
non-empty line that passes the clean-line test, does not start
case-insensitively with one of the five label tags, and has length at
least 4; if no such line exists the title is empty. -/
theorem C2_title_selection (s : String) :
    (processSmartMetadata s).title =
      String.mk (((textLines s).find?
        (fun l => isCleanLine l && !isLabelLine l && decide (4 ≤ l.length))).getD []) := by
  have h := titleScan_eq_find (textLines s)
  unfold processSmartMetadata
  cases hxs : textLines s with
  | nil => simp
  | cons a as =>
    rw [hxs] at h
    simp [h]

/-- A line matching the music pattern ends the labelled scan at once with
that line's trimmed capture, whatever composer value the scan has
accumulated from earlier lyrics matches. -/
theorem labeledScan_music (li cap : List Char) (post : List (List Char))
    (hm : musicMatch li = some cap) :
    ∀ pre : List (List Char), (∀ l ∈ pre, musicMatch l = none) →
      ∀ comp, labeledScan (pre ++ li :: post) comp = jsTrim cap := by
  intro pre
  induction pre with
  | nil => intro _ comp; simp [labeledScan, hm]
  | cons p ps ih =>
    intro hnone comp
    have hp : musicMatch p = none := hnone p (List.mem_cons_self p ps)
    have hps : ∀ l ∈ ps, musicMatch l = none := fun l hl => hnone l (List.mem_cons_of_mem p hl)
    cases hl : lyricsMatch p <;> simp [labeledScan, hp, hl, ih hps]

/-- C3: whenever the labelled-pattern scan produces no composer, the
composer is chosen positionally: among the clean lines in order, the
first is skipped, and the next clean line that differs from the selected
title and has length at least 3 is taken; the composer is empty when no
such line exists. -/
theorem C3_positional_fallback (s : String)
    (h : labeledScan (textLines s) [] = []) :
    (processSmartMetadata s).composer =
      String.mk ((((textLines s).filter isCleanLine).tail.find?
        (fun l => decide (l ≠ titleScan (textLines s)) && decide (3 ≤ l.length))).getD
          []) := by
  unfold processSmartMetadata
  cases hxs : textLines s with
  | nil => simp
  | cons a as =>
    rw [hxs] at h
    simp [h, fallbackScan_false_eq]

/-- Witness for C3 at the Beethoven sample, where no labelled pattern
matches and the fallback yields the second line. -/
theorem C3_positional_fallback_witness :
    labeledScan (textLines "Symphony No. 5\nLudwig van Beethoven\nMusic: L. Beethoven") []
        = [] ∧
    (processSmartMetadata "Symphony No. 5\nLudwig van Beethoven\nMusic: L. Beethoven").composer
        = String.mk
          ((((textLines "Symphony No. 5\nLudwig van Beethoven\nMusic: L. Beethoven").filter
            isCleanLine).tail.find?
            (fun l => decide (l ≠ titleScan
              (textLines "Symphony No. 5\nLudwig van Beethoven\nMusic: L. Beethoven")) &&
              decide (3 ≤ l.length))).getD []) :=
  ⟨by decide, C3_positional_fallback _ (by decide)⟩

/-- C10: when some line matches the music-labelled pattern, the final
composer is the trimmed capture of the first such line, even when a
lyrics-labelled line occurs elsewhere, before or after it: a lyrics match
does not stop the scan and is overridden by a later music match. -/
theorem C10_music_label_precedence (s : String)
    (pre post : List (List Char)) (li cap : List Char)
    (hsplit : textLines s = pre ++ li :: post)
    (hpre : ∀ l ∈ pre, musicMatch l = none)
    (hm : musicMatch li = some cap)
    (_hlyr : ∃ l ∈ textLines s, lyricsMatch l ≠ none)
    (hne : jsTrim cap ≠ []) :
    (processSmartMetadata s).composer = String.mk (jsTrim cap) := by
  have hscan : labeledScan (textLines s) [] = jsTrim cap := by
    rw [hsplit]; exact labeledScan_music li cap post hm pre hpre []
  unfold processSmartMetadata
  cases hxs : textLines s with
  | nil => rw [hxs] at hsplit; cases pre <;> simp at hsplit
  | cons a as =>
    rw [hxs] at hscan
    simp [hscan, hne]

/-- Witness for C10 on an input whose lyrics-labelled line precedes the
music-labelled line. -/
theorem C10_music_label_precedence_witness :
    textLines "Αθήνα\nΣτίχοι: Νίκος\nΜουσική: Μάνος"
        = ["Αθήνα".data, "Στίχοι: Νίκος".data] ++ "Μουσική: Μάνος".data :: [] ∧
    (∀ l ∈ (["Αθήνα".data, "Στίχοι: Νίκος".data] : List (List Char)),
      musicMatch l = none) ∧
    musicMatch "Μουσική: Μάνος".data = some "Μάνος".data ∧
    (∃ l ∈ textLines "Αθήνα\nΣτίχοι: Νίκος\nΜουσική: Μάνος", lyricsMatch l ≠ none) ∧
    jsTrim "Μάνος".data ≠ [] ∧
    (processSmartMetadata "Αθήνα\nΣτίχοι: Νίκος\nΜουσική: Μάνος").composer
        = String.mk (jsTrim "Μάνος".data) :=
  ⟨by decide, by decide, by decide, by decide, by decide,
    C10_music_label_precedence "Αθήνα\nΣτίχοι: Νίκος\nΜουσική: Μάνος"
      ["Αθήνα".data, "Στίχοι: Νίκος".data] [] "Μουσική: Μάνος".data "Μάνος".data
      (by decide) (by decide) (by decide) (by decide) (by decide)⟩

/-- C8: a line containing no Latin or Greek letters, such as one made
only of dash, bullet, or underline characters, fails the clean-line test
and is never returned as the title or as the composer. -/
theorem C8_noise_line_never_selected (s : String) (l : List Char)
    (hmem : l ∈ textLines s)
    (hfree : ∀ c ∈ l, isGreekLetter c = false ∧ isLatinLetter c = false ∧
      isRegexLetter c = false) :
    isCleanLine l = false ∧
    (processSmartMetadata s).title ≠ String.mk l ∧
    (processSmartMetadata s).composer ≠ String.mk l := by
  have hne : l ≠ [] := by
    rw [textLines] at hmem
    have := (List.mem_filter.mp hmem).2
    simpa using this
  have hclean : isCleanLine l = false := by
    have hg : l.filter isGreekLetter = [] :=
      List.filter_eq_nil_iff.mpr (fun c hcm => by simp [(hfree c hcm).1])
    have hlat : l.filter isLatinLetter = [] :=
      List.filter_eq_nil_iff.mpr (fun c hcm => by simp [(hfree c hcm).2.1])
    simp [isCleanLine, hg, hlat]
  obtain ⟨a, as, hxs⟩ : ∃ a as, textLines s = a :: as := by
    cases h : textLines s with
    | nil => rw [h] at hmem; exact absurd hmem (List.not_mem_nil l)
    | cons a as => exact ⟨a, as, rfl⟩
  have hform : processSmartMetadata s =
      ⟨String.mk (titleScan (textLines s)),
        String.mk (if (labeledScan (textLines s) []).isEmpty
          then fallbackScan (titleScan (textLines s)) (textLines s) false
          else labeledScan (textLines s) []), s⟩ := by
    unfold processSmartMetadata
    rw [hxs]
    simp
  have htitle : titleScan (textLines s) ≠ l := by
    rw [titleScan_eq_find]
    cases hf : (textLines s).find?
        (fun l => isCleanLine l && !isLabelLine l && decide (4 ≤ l.length)) with
    | none => simpa using fun h => hne h
    | some t =>
      have hp := List.find?_some hf
      intro hq
      simp only [Option.getD_some] at hq
      rw [hq] at hp
      simp [hclean] at hp
  have hcomp : (if (labeledScan (textLines s) []).isEmpty
      then fallbackScan (titleScan (textLines s)) (textLines s) false
      else labeledScan (textLines s) []) ≠ l := by
    cases hemp : (labeledScan (textLines s) []).isEmpty
    · have hlet := labeledScan_letter (textLines s) [] (fun h => absurd rfl h)
        (fun hh => by rw [hh] at hemp; exact absurd hemp (by simp))
      simp only [hemp, Bool.false_eq_true, if_false]
      intro hq
      obtain ⟨c, hcm, hcl⟩ := hlet
      rw [hq] at hcm
      exact absurd hcl (by simp [(hfree c hcm).2.2])
    · simp only [hemp, if_true]
      rcases fallbackScan_clean (titleScan (textLines s)) (textLines s) false with h | h
      · intro hq; rw [hq] at h; exact hne h
      · intro hq; rw [hq] at h; rw [hclean] at h; exact absurd h (by simp)
  refine ⟨hclean, ?_, ?_⟩
  · rw [hform]
    intro h
    exact htitle (congrArg String.data h)
  · rw [hform]
    intro h
    exact hcomp (congrArg String.data h)

/-- Witness for C8 on an input whose second line is pure dashes. -/
theorem C8_noise_line_never_selected_witness :
    "---".data ∈ textLines "Ode to Joy\n---\nJ S Bach" ∧
    (∀ c ∈ "---".data, isGreekLetter c = false ∧ isLatinLetter c = false ∧
      isRegexLetter c = false) ∧
    isCleanLine "---".data = false ∧
    (processSmartMetadata "Ode to Joy\n---\nJ S Bach").title ≠ String.mk "---".data ∧
    (processSmartMetadata "Ode to Joy\n---\nJ S Bach").composer ≠ String.mk "---".data := by
  refine ⟨by decide, by decide, ?_, ?_, ?_⟩ <;>
    [skip; skip; skip] <;>
    first
    | exact (C8_noise_line_never_selected "Ode to Joy\n---\nJ S Bach" "---".data
        (by decide) (by decide)).1
    | exact (C8_noise_line_never_selected "Ode to Joy\n---\nJ S Bach" "---".data
        (by decide) (by decide)).2.1
    | exact (C8_noise_line_never_selected "Ode to Joy\n---\nJ S Bach" "---".data
        (by decide) (by decide)).2.2

/-- C9: the extractor is total, returning the record with exactly the
title, composer and raw-text string fields for every input, and on the
empty string every field is empty. -/
theorem C9_total_and_empty :
    processSmartMetadata "" = ⟨"", "", ""⟩ ∧
    ∀ s : String,
      processSmartMetadata s =
        ⟨(processSmartMetadata s).title, (processSmartMetadata s).composer,
          (processSmartMetadata s).rawText⟩ :=
  ⟨by decide, fun _ => rfl⟩

/-- Indexing a mapped range below its bound yields the function value. -/
theorem getD_map_range {β : Type} (n : Nat) (g : Nat → β) (i : Nat) (hi : i < n) (d : β) :
    ((List.range n).map g).getD i d = g i := by
  rw [List.getD_eq_getElem?_getD, List.getElem?_map, List.getElem?_range hi]
  rfl

/-- Indexing a mapped list below its length yields the function applied at
the corresponding entry, for any defaults. -/
theorem getD_map_of_lt {α β : Type} (f : α → β) (l : List α) (i : Nat) (hi : i < l.length)
    (d : α) (d2 : β) : (l.map f).getD i d2 = f (l.getD i d) := by
  rw [List.getD_eq_getElem?_getD, List.getElem?_map,
    List.getElem?_eq_getElem hi, List.getD_eq_getElem?_getD,
    List.getElem?_eq_getElem hi]
  rfl

/-- C4: a path annotation with at least two points draws one line segment
per adjacent pair of points, each endpoint being the image of the
normalized point under the transform taking x to x times the width and y
to the height minus y times the height; a path annotation with fewer than
two points draws nothing and produces no error. -/
theorem C4_path_segments :
    (∀ (w h : ℚ) (a : Ann) (ps : List Pt) (colorObj : RGBColor),
      a.type = "path" → a.points = some ps → 2 ≤ ps.length →
      mkRgb (resolveColor a.color ⟨1, 1, 0⟩) = Except.ok colorObj →
      ∃ ops, processAnn w h a = Except.ok ops ∧ ops.length = ps.length - 1 ∧
        ∀ i, i < ps.length - 1 →
          ops.getD i (DrawOp.text "" 0 0 0 ⟨0, 0, 0⟩) =
            DrawOp.line
              ⟨(ps.getD i ⟨0, 0⟩).x * w, h - (ps.getD i ⟨0, 0⟩).y * h⟩
              ⟨(ps.getD (i + 1) ⟨0, 0⟩).x * w, h - (ps.getD (i + 1) ⟨0, 0⟩).y * h⟩
              (numOr a.strokeWidth 5) colorObj (a.opacity.getD (1 / 2))) ∧
    (∀ (w h : ℚ) (a : Ann) (ps : List Pt),
      a.type = "path" → a.points = some ps → ps.length < 2 →
      processAnn w h a = Except.ok []) := by
  constructor
  · intro w h a ps colorObj hty hpts hlen hcol
    have h1 : 1 < ps.length := by omega
    have hd : decide (1 < ps.length) = true := decide_eq_true h1
    rw [processAnn]
    simp only [hty, hpts, Option.getD_some, Option.isSome_some, hd,
      Bool.and_true, Bool.and_self, beq_self_eq_true, if_true, hcol]
    refine ⟨_, rfl, by simp, ?_⟩
    intro i hi
    have hi2 : i < (ps.map (fun p => Pt.mk (p.x * w) (h - p.y * h))).length - 1 := by
      simpa using hi
    rw [getD_map_range _ _ i (by simpa using hi)]
    have hia : i < ps.length := by omega
    have hib : i + 1 < ps.length := by omega
    rw [getD_map_of_lt _ ps i hia ⟨0, 0⟩, getD_map_of_lt _ ps (i + 1) hib ⟨0, 0⟩]
  · intro w h a ps hty hpts hlen
    have h1 : ¬(1 < ps.length) := by omega
    have hd : decide (1 < ps.length) = false := decide_eq_false h1
    rw [processAnn]
    simp [hty, hpts, hd, strTruthy]

/-- Witness for C4: a two-point path with the default colour, and a
one-point path. -/
theorem C4_path_segments_witness :
    (∃ ops, processAnn 100 200
        { type := "path", points := some [⟨0, 0⟩, ⟨1 / 2, 1 / 2⟩] } = Except.ok ops ∧
      ops.length = ([(⟨0, 0⟩ : Pt), ⟨1 / 2, 1 / 2⟩]).length - 1 ∧
      ∀ i, i < ([(⟨0, 0⟩ : Pt), ⟨1 / 2, 1 / 2⟩]).length - 1 →
        ops.getD i (DrawOp.text "" 0 0 0 ⟨0, 0, 0⟩) =
          DrawOp.line
            ⟨(([(⟨0, 0⟩ : Pt), ⟨1 / 2, 1 / 2⟩]).getD i ⟨0, 0⟩).x * 100,
              200 - (([(⟨0, 0⟩ : Pt), ⟨1 / 2, 1 / 2⟩]).getD i ⟨0, 0⟩).y * 200⟩
            ⟨(([(⟨0, 0⟩ : Pt), ⟨1 / 2, 1 / 2⟩]).getD (i + 1) ⟨0, 0⟩).x * 100,
              200 - (([(⟨0, 0⟩ : Pt), ⟨1 / 2, 1 / 2⟩]).getD (i + 1) ⟨0, 0⟩).y * 200⟩
            (numOr none 5) ⟨1, 1, 0⟩ ((none : Option ℚ).getD (1 / 2))) ∧
    processAnn 100 200 { type := "path", points := some [⟨0, 0⟩] } = Except.ok [] :=
  ⟨C4_path_segments.1 100 200 { type := "path", points := some [⟨0, 0⟩, ⟨1 / 2, 1 / 2⟩] }
      [⟨0, 0⟩, ⟨1 / 2, 1 / 2⟩] ⟨1, 1, 0⟩ rfl rfl (by decide) rfl,
    C4_path_segments.2 100 200 { type := "path", points := some [⟨0, 0⟩] }
      [⟨0, 0⟩] rfl rfl (by decide)⟩

/-- C5: a text annotation draws its string at the point whose abscissa is
x times the width and whose ordinate is the height minus y times the
height, shifted down by the font size less two; at the origin the drawn
point lies in the upper half of the page whenever twice the shifted font
size is below the height. -/
theorem C5_text_position (w h : ℚ) (a : Ann) (str : String) (colorObj : RGBColor)
    (hty : a.type = "text") (htx : a.text = some str) (hne : str ≠ "")
    (hcol : mkRgb (resolveColor a.color ⟨0, 0, 0⟩) = Except.ok colorObj) :
    processAnn w h a =
      Except.ok [DrawOp.text str (a.x * w) (h - a.y * h - (numOr a.size 12 - 2))
        (numOr a.size 12) colorObj] ∧
    (a.x = 0 → a.y = 0 → 2 * (numOr a.size 12 - 2) < h →
      h / 2 < h - a.y * h - (numOr a.size 12 - 2)) := by
  constructor
  · rw [processAnn]
    have hpath : (a.type == "path") = false := by simp [hty]
    have htext : (a.type == "text") = true := by simp [hty]
    have hie : str.isEmpty = false := by
      cases hs : str.isEmpty
      · rfl
      · exact absurd ((String.isEmpty_iff str).mp hs) hne
    have htru : strTruthy (some str) = true := by simp [strTruthy, hie]
    have heq : h - a.y * h - numOr a.size 12 + 2 = h - a.y * h - (numOr a.size 12 - 2) := by
      ring
    simp [hpath, htext, htru, hcol, htx, heq]
  · intro _ hy hfs
    rw [hy]
    nlinarith [hfs]

/-- Witness for C5: a default-size text annotation at the origin of a
Letter-sized page is drawn at ordinate 782, in the top half of the page. -/
theorem C5_text_position_witness :
    processAnn 612 792 { type := "text", text := some "hi" } =
      Except.ok [DrawOp.text "hi" (0 * 612) (792 - 0 * 792 - (numOr none 12 - 2))
        (numOr none 12) ⟨0, 0, 0⟩] ∧
    ((0 : ℚ) = 0 → (0 : ℚ) = 0 → 2 * (numOr none 12 - 2) < 792 →
      (792 : ℚ) / 2 < 792 - 0 * 792 - (numOr none 12 - 2)) :=
  C5_text_position 612 792 { type := "text", text := some "hi" } "hi" ⟨0, 0, 0⟩
    rfl rfl (by decide) rfl

/-- Applying one annotation-map entry never changes the number of pages. -/
theorem applyEntry_length (pages : List Page) (e : Nat × List Ann) :
    (applyEntry pages e).length = pages.length := by
  rw [applyEntry]
  by_cases hr : 1 ≤ e.1 ∧ e.1 ≤ pages.length
  · rw [if_pos hr]
    cases hg : pages.get? (e.1 - 1) with
    | some pg => simp
    | none => rfl
  · rw [if_neg hr]

/-- C6: keys of the annotation map whose page number lies outside the
range from 1 to the page count are skipped silently: removing them from
the map leaves the composited document unchanged, and the in-range keys
still render. -/
theorem C6_out_of_range_keys_skipped (pages : List Page) (m : List (Nat × List Ann)) :
    applyAnnotations pages m =
      applyAnnotations pages
        (m.filter (fun e => decide (1 ≤ e.1) && decide (e.1 ≤ pages.length))) := by
  induction m generalizing pages with
  | nil => rfl
  | cons e rest ih =>
    by_cases he : 1 ≤ e.1 ∧ e.1 ≤ pages.length
    · have hkeep : (decide (1 ≤ e.1) && decide (e.1 ≤ pages.length)) = true := by
        simp [he.1, he.2]
      rw [List.filter_cons, if_pos hkeep]
      show applyAnnotations (applyEntry pages e) rest =
        applyAnnotations (applyEntry pages e)
          (rest.filter (fun e2 => decide (1 ≤ e2.1) && decide (e2.1 ≤ pages.length)))
      rw [← applyEntry_length pages e]
      exact ih (applyEntry pages e)
    · have hdrop : (decide (1 ≤ e.1) && decide (e.1 ≤ pages.length)) = false := by
        rcases Decidable.not_and_iff_or_not.mp he with h | h <;> simp [h]
      rw [List.filter_cons, hdrop]
      show applyAnnotations (applyEntry pages e) rest =
        applyAnnotations pages
          (rest.filter (fun e2 => decide (1 ≤ e2.1) && decide (e2.1 ≤ pages.length)))
      rw [applyEntry, if_neg he]
      exact ih pages

/-- C7: a per annotation failure is contained: a throwing annotation is
dropped and the page renders as if only its siblings were present, and an
unparseable colour field in particular behaves exactly as an absent one,
keeping the branch default colour. -/
theorem C7_failure_isolated :
    (∀ (w h : ℚ) (xs ys : List Ann) (bad : Ann),
      processAnn w h bad = Except.error () →
      renderPage w h (xs ++ bad :: ys) = renderPage w h xs ++ renderPage w h ys) ∧
    (∀ (w h : ℚ) (a : Ann),
      processAnn w h { a with color := ColorField.malformed } =
        processAnn w h { a with color := ColorField.absent }) := by
  constructor
  · intro w h xs ys bad hbad
    simp [renderPage, hbad, annOps]
  · intro w h a
    simp [processAnn, resolveColor]

/-- Witness for C7: an out-of-range parsed colour throws and is skipped
between two rendered text annotations. -/
theorem C7_failure_isolated_witness :
    processAnn 10 10
        { type := "path", points := some [⟨0, 0⟩, ⟨1, 1⟩],
          color := ColorField.parsed (some 5) none none } = Except.error () ∧
    renderPage 10 10
        ([{ type := "text", text := some "a" }] ++
          { type := "path", points := some [⟨0, 0⟩, ⟨1, 1⟩],
            color := ColorField.parsed (some 5) none none } ::
          [{ type := "text", text := some "b" }]) =
      renderPage 10 10 [{ type := "text", text := some "a" }] ++
        renderPage 10 10 [{ type := "text", text := some "b" }] ∧
    processAnn 10 10
        { type := "text", text := some "a", color := ColorField.malformed } =
      processAnn 10 10
        { type := "text", text := some "a", color := ColorField.absent } :=
  ⟨rfl,
    C7_failure_isolated.1 10 10 [{ type := "text", text := some "a" }]
      [{ type := "text", text := some "b" }]
      { type := "path", points := some [⟨0, 0⟩, ⟨1, 1⟩],
        color := ColorField.parsed (some 5) none none } rfl,
    C7_failure_isolated.2 10 10 { type := "text", text := some "a" }⟩

end OpusOne
